import Mathlib

/-!
Verification development for the GIFStream dataset-preparation code
(`dataset_process/n3d_video_process.py` and
`examples/datasets/GIFStream_new.py`).  Python floating-point arithmetic is
modelled exactly over `ℚ`; Python integers over `ℤ` (or `ℕ` where the source
values are manifestly non-negative); Python floor division `//` over `ℤ` is
`Int.fdiv`; fallible code is modelled with `Option`/`Except`.
-/

namespace GIFStream

/-- Source `frame_list` (n3d_video_process.py, line 256):
`[startframe + x * GOP for x in range((endframe - startframe + GOP - 1) // GOP)]`.
Python `//` is floor division, embedded as `Int.fdiv`; `range` of a
non-positive argument is empty, matched by `Int.toNat`. -/
def frame_list (startframe endframe GOP : ℤ) : List ℤ :=
  (List.range ((endframe - startframe + GOP - 1).fdiv GOP).toNat).map
    (fun (x : ℕ) => startframe + (x : ℤ) * GOP)

/-- The split tag of the Sample Dataset (`Dataset.__init__`, `split` argument). -/
inductive Split
  | train
  | test
deriving DecidableEq

/-- Source `Dataset.__init__` (GIFStream_new.py, lines 335-343).
`numCams` is `len(self.parser.camera_names)`.  The code builds
`np.arange(numCams * GOP_size)`, keeps the indices whose GOP number
`x // GOP_size` is outside (train) or inside (test) `test_set`, and, when a
`remove_set` is given, afterwards drops indices whose GOP number is in it. -/
def datasetIndices (numCams GOP_size : ℕ) (test_set : List ℕ)
    (remove_set : Option (List ℕ)) (split : Split) : List ℕ :=
  let indices := List.range (numCams * GOP_size)
  let base :=
    if split = Split.train then
      indices.filter (fun x => decide (x / GOP_size ∉ test_set))
    else
      indices.filter (fun x => decide (x / GOP_size ∈ test_set))
  match remove_set with
  | none => base
  | some rs => base.filter (fun x => decide (x / GOP_size ∉ rs))

/-- Source `Dataset.__getitem__`, line 349:
`cam = self.indices[item] // self.GOP_size`.  An out-of-range `item` raises
`IndexError` in Python; it is modelled by the default `0` and every claim
is stated for valid items only. -/
def getItemCam (indices : List ℕ) (GOP_size item : ℕ) : ℕ :=
  indices.getD item 0 / GOP_size

/-- Source `Dataset.__getitem__`, line 350:
`frame_idx = self.start_frame + item - (item // self.GOP_size) * self.GOP_size`. -/
def getItemFrameIdx (start_frame GOP_size item : ℕ) : ℕ :=
  start_frame + item - item / GOP_size * GOP_size

/-- Source `Dataset.__getitem__`, line 407:
`"time": float(frame_idx - self.start_frame) / (self.GOP_size - 1)`.
Python raises `ZeroDivisionError` when `GOP_size - 1 == 0`; the unguarded
division is modelled by returning `none` exactly in that case. -/
def getItemTime (start_frame GOP_size item : ℕ) : Option ℚ :=
  if (GOP_size : ℤ) - 1 = 0 then none
  else
    some (((getItemFrameIdx start_frame GOP_size item : ℚ) - (start_frame : ℚ)) /
      ((GOP_size : ℚ) - 1))

/-- The address map sending a global sample index `x` in `0..N*G-1` to its
(camera, frame-in-GOP) pair `(x / G, x % G)`. -/
def gopAddr (N G : ℕ) (hG : 0 < G) (x : Fin (N * G)) : Fin N × Fin G :=
  (⟨(x : ℕ) / G, (Nat.div_lt_iff_lt_mul hG).mpr x.isLt⟩,
   ⟨(x : ℕ) % G, Nat.mod_lt _ hG⟩)

theorem getItemFrameIdx_eq (s G item : ℕ) :
    getItemFrameIdx s G item = s + item % G := by
  have h := Nat.div_add_mod item G
  unfold getItemFrameIdx
  rw [Nat.mul_comm (item / G) G]
  omega

theorem gopAddr_bijective (N G : ℕ) (hG : 0 < G) :
    Function.Bijective (gopAddr N G hG) := by
  rw [Fintype.bijective_iff_surjective_and_card]
  refine ⟨?_, by simp⟩
  · rintro ⟨c, r⟩
    refine ⟨⟨G * (c : ℕ) + (r : ℕ), ?_⟩, ?_⟩
    · calc G * (c : ℕ) + (r : ℕ) < G * (c : ℕ) + G := by omega
        _ = ((c : ℕ) + 1) * G := by ring
        _ ≤ N * G := Nat.mul_le_mul_right G c.isLt
    · unfold gopAddr
      refine Prod.ext (Fin.ext ?_) (Fin.ext ?_)
      · show (G * (c : ℕ) + (r : ℕ)) / G = (c : ℕ)
        rw [Nat.mul_add_div hG, Nat.div_eq_of_lt r.isLt, Nat.add_zero]
      · show (G * (c : ℕ) + (r : ℕ)) % G = (r : ℕ)
        rw [Nat.mul_add_mod, Nat.mod_eq_of_lt r.isLt]

theorem filter_range_mul_blocks (p : ℕ → Bool) (N G : ℕ) :
    (List.range (N * G)).filter (fun x => p (x / G)) =
      ((List.range N).filter p).flatMap
        (fun c => (List.range G).map (fun r => c * G + r)) := by
  induction N with
  | zero => simp
  | succ n ih =>
    rw [Nat.succ_mul, List.range_add, List.filter_append, ih, List.range_succ,
      List.filter_append, List.flatMap_append]
    congr 1
    rw [List.filter_map]
    have hcongr : ∀ r ∈ List.range G,
        ((fun x => p (x / G)) ∘ (fun x => n * G + x)) r = p n := by
      intro r hr
      have hrG : r < G := List.mem_range.mp hr
      have : (n * G + r) / G = n := by
        rw [Nat.add_comm, Nat.add_mul_div_right _ _ (by omega), Nat.div_eq_of_lt hrG,
          Nat.zero_add]
      simp [Function.comp, this]
    rw [List.filter_congr hcongr]
    cases hp : p n <;> simp [hp]

theorem blocks_length (l : List ℕ) (G : ℕ) :
    (l.flatMap (fun c => (List.range G).map (fun r => c * G + r))).length =
      l.length * G := by
  induction l with
  | nil => simp
  | cons c t ih =>
    rw [List.flatMap_cons, List.length_append, ih, List.length_map,
      List.length_range, List.length_cons, Nat.succ_mul]
    omega

theorem blocks_getElem (l : List ℕ) (G : ℕ) (hG : 0 < G) (item : ℕ)
    (h : item < l.length * G) :
    (l.flatMap (fun c => (List.range G).map (fun r => c * G + r)))[item]? =
      some (l.getD (item / G) 0 * G + item % G) := by
  induction l generalizing item with
  | nil => simp at h
  | cons c t ih =>
    rw [List.flatMap_cons]
    by_cases hlt : item < G
    · rw [List.getElem?_append_left (by simpa using hlt)]
      rw [Nat.div_eq_of_lt hlt, Nat.mod_eq_of_lt hlt]
      simp [List.getElem?_range hlt]
    · push_neg at hlt
      rw [List.getElem?_append_right (by simpa using hlt)]
      have hlen : (List.map (fun r => c * G + r) (List.range G)).length = G := by simp
      rw [hlen]
      have hstep : item - G < t.length * G := by
        rw [List.length_cons, Nat.add_mul, Nat.one_mul] at h
        omega
      rw [ih (item - G) hstep]
      have hdiv : (item - G) / G = item / G - 1 := by
        have h1 : item = (item - G) + G := by omega
        conv_rhs => rw [h1]
        rw [Nat.add_div_right _ hG]
        rfl
      have hdiv1 : 1 ≤ item / G := (Nat.one_le_div_iff hG).mpr hlt
      have hmod : (item - G) % G = item % G := by
        conv_rhs => rw [show item = (item - G) + G by omega]
        rw [Nat.add_mod_right]
      rw [hdiv, hmod]
      congr 2
      cases hq : item / G with
      | zero => omega
      | succ m => simp [List.getD_cons_succ, hq]

/-- The per-GOP keep predicate realized by the successive filters of
`Dataset.__init__`: the split filter, then (when given) the removal filter. -/
def keepGOP (test_set : List ℕ) (remove_set : Option (List ℕ)) (split : Split)
    (c : ℕ) : Bool :=
  match remove_set with
  | none =>
      if split = Split.train then decide (c ∉ test_set) else decide (c ∈ test_set)
  | some rs =>
      decide (c ∉ rs) &&
        (if split = Split.train then decide (c ∉ test_set) else decide (c ∈ test_set))

theorem datasetIndices_eq_filter (N G : ℕ) (test : List ℕ)
    (remove : Option (List ℕ)) (split : Split) :
    datasetIndices N G test remove split =
      (List.range (N * G)).filter (fun x => keepGOP test remove split (x / G)) := by
  cases remove with
  | none => cases split <;> rfl
  | some rs =>
      cases split with
      | train =>
          show List.filter _ (if Split.train = Split.train then _ else _) = _
          rw [if_pos rfl, List.filter_filter]
          rfl
      | test =>
          show List.filter _ (if Split.test = Split.train then _ else _) = _
          rw [if_neg (fun h => nomatch h), List.filter_filter]
          rfl

theorem datasetIndices_getElem (N G : ℕ) (hG : 0 < G) (test : List ℕ)
    (remove : Option (List ℕ)) (split : Split) (item : ℕ)
    (h : item < (datasetIndices N G test remove split).length) :
    (datasetIndices N G test remove split)[item]? =
      some (((List.range N).filter (keepGOP test remove split)).getD (item / G) 0 * G
        + item % G) := by
  rw [datasetIndices_eq_filter] at h ⊢
  rw [filter_range_mul_blocks] at h ⊢
  apply blocks_getElem _ _ hG
  rwa [blocks_length] at h

theorem datasetIndices_getD_mod (N G : ℕ) (hG : 0 < G) (test : List ℕ)
    (remove : Option (List ℕ)) (split : Split) (item : ℕ)
    (h : item < (datasetIndices N G test remove split).length) :
    (datasetIndices N G test remove split).getD item 0 % G = item % G := by
  have hg := datasetIndices_getElem N G hG test remove split item h
  rw [List.getD_eq_getElem?_getD, hg]
  show (((List.range N).filter (keepGOP test remove split)).getD (item / G) 0 * G
    + item % G) % G = item % G
  rw [Nat.mul_comm, Nat.mul_add_mod, Nat.mod_eq_of_lt (Nat.mod_lt _ hG)]

/-- Claim C2: for every valid dataset index, the emitted sample is for camera
`i / GOP_size` and frame `start_frame + (i % GOP_size)` where `i` is the
stored global index `self.indices[item]`, for every split; and over the full
range `0..N*GOP_size-1` the address map `x ↦ (x / G, x % G)` is a bijection
onto the (camera, frame-in-GOP) product space. -/
theorem claim2_dataset_indexing (N G start : ℕ) (test : List ℕ)
    (remove : Option (List ℕ)) (split : Split) (item : ℕ) (hG : 0 < G)
    (h : item < (datasetIndices N G test remove split).length) :
    (getItemCam (datasetIndices N G test remove split) G item =
        (datasetIndices N G test remove split).getD item 0 / G ∧
      getItemFrameIdx start G item =
        start + (datasetIndices N G test remove split).getD item 0 % G) ∧
    Function.Bijective (gopAddr N G hG) := by
  refine ⟨⟨rfl, ?_⟩, gopAddr_bijective N G hG⟩
  rw [getItemFrameIdx_eq, datasetIndices_getD_mod N G hG test remove split item h]

/-- Witness for claim C2 at `N = 2`, `G = 3`, `start = 5`, `test_set = [0]`,
`remove_set = some []`, train split, `item = 1` (so the stored global index
is `4`). -/
theorem claim2_dataset_indexing_witness :
    (getItemCam (datasetIndices 2 3 [0] (some []) Split.train) 3 1 =
        (datasetIndices 2 3 [0] (some []) Split.train).getD 1 0 / 3 ∧
      getItemFrameIdx 5 3 1 =
        5 + (datasetIndices 2 3 [0] (some []) Split.train).getD 1 0 % 3) ∧
    Function.Bijective (gopAddr 2 3 (by norm_num)) :=
  claim2_dataset_indexing 2 3 5 [0] (some []) Split.train 1 (by norm_num)
    (by decide)

/-- Claim C6: membership of a global index `x` in the test split is
`x / GOP_size ∈ test_set`, in the train split `x / GOP_size ∉ test_set`,
with GOP numbers in `remove_set` removed from either split afterwards; and
with `GOP_size = 50`, `test_set = [0]`, index `49` is in the test split and
index `50` is in the train split. -/
theorem datasetIndices_mem (N G : ℕ) (test : List ℕ) (rm : Option (List ℕ))
    (sp : Split) (y : ℕ) :
    y ∈ datasetIndices N G test rm sp ↔
      y < N * G ∧
        (if sp = Split.train then y / G ∉ test else y / G ∈ test) ∧
        y / G ∉ rm.getD [] := by
  cases rm with
  | none =>
      cases sp <;>
        simp [datasetIndices, List.mem_filter, List.mem_range]
  | some rs =>
      cases sp <;>
        (simp [datasetIndices, List.mem_filter, List.mem_range]; tauto)

theorem claim6_split_membership (N G : ℕ) (test : List ℕ)
    (remove : Option (List ℕ)) (x : ℕ) :
    (x ∈ datasetIndices N G test remove Split.test ↔
      x < N * G ∧ x / G ∈ test ∧ x / G ∉ remove.getD []) ∧
    (x ∈ datasetIndices N G test remove Split.train ↔
      x < N * G ∧ x / G ∉ test ∧ x / G ∉ remove.getD []) ∧
    (2 ≤ N →
      49 ∈ datasetIndices N 50 [0] none Split.test ∧
      50 ∈ datasetIndices N 50 [0] none Split.train) := by
  have htest := datasetIndices_mem N G test remove Split.test x
  rw [if_neg (fun h => nomatch h)] at htest
  have htrain := datasetIndices_mem N G test remove Split.train x
  rw [if_pos rfl] at htrain
  refine ⟨htest, htrain, ?_⟩
  intro hN
  have h49 := datasetIndices_mem N 50 [0] none Split.test 49
  rw [if_neg (fun h => nomatch h)] at h49
  have h50 := datasetIndices_mem N 50 [0] none Split.train 50
  rw [if_pos rfl] at h50
  exact ⟨h49.mpr ⟨by omega, by decide, by decide⟩,
         h50.mpr ⟨by omega, by decide, by decide⟩⟩

/-- Witness for claim C6 at `N = 2`, `G = 50`, `test_set = [0]`,
`remove_set = none`: index 49 lands in the test split, index 50 in the train
split. -/
theorem claim6_split_membership_witness :
    49 ∈ datasetIndices 2 50 [0] none Split.test ∧
    50 ∈ datasetIndices 2 50 [0] none Split.train :=
  (claim6_split_membership 2 50 [0] none 49).2.2 (by norm_num)

/-- Claim C8: the emitted time equals
`(frame_idx - start_frame) / (GOP_size - 1)`; for `GOP_size ≥ 2` it lies in
`[0, 1]`; for a GOP of size 50 starting at frame 0, item 0 has time 0, item
49 has time 1, item 25 has time 25/49; for `GOP_size = 1` the division by
zero is unguarded (Python `ZeroDivisionError`, modelled as `none`). -/
theorem claim8_sample_time (start G item : ℕ) :
    (2 ≤ G →
      getItemTime start G item =
        some (((getItemFrameIdx start G item : ℚ) - (start : ℚ)) /
          ((G : ℚ) - 1)) ∧
      ∃ t : ℚ, getItemTime start G item = some t ∧ 0 ≤ t ∧ t ≤ 1) ∧
    getItemTime start 1 item = none ∧
    getItemTime 0 50 0 = some 0 ∧
    getItemTime 0 50 49 = some 1 ∧
    getItemTime 0 50 25 = some (25 / 49) := by
  refine ⟨?_, by simp [getItemTime], by norm_num [getItemTime, getItemFrameIdx],
    by norm_num [getItemTime, getItemFrameIdx],
    by norm_num [getItemTime, getItemFrameIdx]⟩
  intro hG2
  have hne : ¬ ((G : ℤ) - 1 = 0) := by omega
  have heq : getItemTime start G item =
      some (((getItemFrameIdx start G item : ℚ) - (start : ℚ)) /
        ((G : ℚ) - 1)) := by
    unfold getItemTime
    rw [if_neg hne]
  refine ⟨heq, ((item % G : ℕ) : ℚ) / ((G : ℚ) - 1), ?_, ?_, ?_⟩
  · rw [heq, getItemFrameIdx_eq]
    push_cast
    ring_nf
  · have hGQ : (0 : ℚ) < (G : ℚ) - 1 := by
      have : (2 : ℚ) ≤ (G : ℚ) := by exact_mod_cast hG2
      linarith
    positivity
  · have hGQ : (0 : ℚ) < (G : ℚ) - 1 := by
      have : (2 : ℚ) ≤ (G : ℚ) := by exact_mod_cast hG2
      linarith
    rw [div_le_one hGQ]
    have hmod : item % G < G := Nat.mod_lt _ (by omega)
    have : ((item % G : ℕ) : ℚ) < (G : ℚ) := by exact_mod_cast hmod
    have hint : ((item % G : ℕ) : ℚ) + 1 ≤ (G : ℚ) := by
      have : (item % G) + 1 ≤ G := hmod
      exact_mod_cast this
    linarith

/-- Witness for claim C8 at `start = 3`, `G = 4`, `item = 9`, the inner
`2 ≤ G` hypothesis discharged. -/
theorem claim8_sample_time_witness :
    getItemTime 3 4 9 =
        some (((getItemFrameIdx 3 4 9 : ℚ) - (3 : ℚ)) / ((4 : ℚ) - 1)) ∧
      ∃ t : ℚ, getItemTime 3 4 9 = some t ∧ 0 ≤ t ∧ t ≤ 1 :=
  (claim8_sample_time 3 4 9).1 (by norm_num)

theorem fdiv_add_sub_one_eq_ceil (a b : ℤ) (hb : 0 < b) :
    (a + b - 1).fdiv b = ⌈(a : ℚ) / (b : ℚ)⌉ := by
  have hbQ : (0 : ℚ) < (b : ℚ) := by exact_mod_cast hb
  have hdm := Int.ediv_add_emod (a + b - 1) b
  have hr0 := Int.emod_nonneg (a + b - 1) (show b ≠ 0 by omega)
  have hrb := Int.emod_lt_of_pos (a + b - 1) hb
  rw [Int.fdiv_eq_ediv _ (by omega)]
  symm
  rw [Int.ceil_eq_iff]
  set n : ℤ := (a + b - 1) / b with hn
  have h1 : b * n < a + b := by omega
  have h2 : a ≤ b * n := by omega
  constructor
  · rw [lt_div_iff hbQ]
    have h1' : (n - 1) * b < a := by
      have hx : (n - 1) * b = b * n - b := by ring
      omega
    exact_mod_cast h1'
  · rw [div_le_iff hbQ]
    have h2' : a ≤ n * b := by
      have hx : n * b = b * n := by ring
      omega
    exact_mod_cast h2'

/-- Claim C5: for `S < E` and `0 < G`, the keyframe list is exactly
`[S + k*G : k < ⌈(E-S)/G⌉]`, strictly increasing; for `S=0, E=300, G=60` it
is `[0,60,120,180,240]` and for `S=10, E=25, G=10` it is `[10,20]`. -/
theorem claim5_keyframe_set (S E G : ℤ) (hSE : S < E) (hG : 0 < G) :
    frame_list S E G =
      (List.range (⌈((E - S : ℤ) : ℚ) / (G : ℚ)⌉.toNat)).map
        (fun (k : ℕ) => S + (k : ℤ) * G) ∧
    (frame_list S E G).Pairwise (· < ·) ∧
    frame_list 0 300 60 = [0, 60, 120, 180, 240] ∧
    frame_list 10 25 10 = [10, 20] := by
  refine ⟨?_, ?_, by decide, by decide⟩
  · unfold frame_list
    rw [fdiv_add_sub_one_eq_ceil (E - S) G hG]
  · unfold frame_list
    apply List.Pairwise.map (fun x : ℕ => S + (x : ℤ) * G)
    · intro a b hab
      have hq : (a : ℤ) * G < (b : ℤ) * G := by
        apply mul_lt_mul_of_pos_right _ hG
        exact_mod_cast hab
      omega
    · exact List.pairwise_lt_range _

/-- Witness for claim C5 at `S = 0`, `E = 300`, `G = 60`. -/
theorem claim5_keyframe_set_witness :
    (frame_list 0 300 60 =
      (List.range (⌈((300 - 0 : ℤ) : ℚ) / ((60 : ℤ) : ℚ)⌉.toNat)).map
        (fun (k : ℕ) => 0 + (k : ℤ) * 60) ∧
    (frame_list 0 300 60).Pairwise (· < ·) ∧
    frame_list 0 300 60 = [0, 60, 120, 180, 240] ∧
    frame_list 10 25 10 = [10, 20]) :=
  claim5_keyframe_set 0 300 60 (by norm_num) (by norm_num)

/-- Inverse of a square matrix as `np.linalg.inv` produces it, over exact
rationals: `det⁻¹ • adjugate` (equal to Mathlib's nonsingular inverse). -/
def npLinalgInv (A : Matrix (Fin 4) (Fin 4) ℚ) : Matrix (Fin 4) (Fin 4) ℚ :=
  (A.det)⁻¹ • A.adjugate

/-- Source `inversestep1` (n3d_video_process.py, lines 30-32): the input is the
`(3, 5, N)` pose stack; `np.concatenate` along axis 1 of the slices
`[:,1:2,:]`, `[:,0:1,:]`, `-[:,2:3,:]`, `[:,3:4,:]`, `[:,4:5,:]` permutes the
five columns to `(col1, col0, -col2, col3, col4)`. -/
def inversestep1 {N : ℕ} (newposes : Fin 3 → Fin 5 → Fin N → ℚ) :
    Fin 3 → Fin 5 → Fin N → ℚ :=
  fun i j k =>
    match j with
    | 0 => newposes i 1 k
    | 1 => newposes i 0 k
    | 2 => -newposes i 2 k
    | 3 => newposes i 3 k
    | 4 => newposes i 4 k

/-- Source `inversestep2` (line 28-29): `newposes[:, 0:4, :]`, keeping the
3x4 affine part. -/
def inversestep2 {N : ℕ} (newposes : Fin 3 → Fin 5 → Fin N → ℚ) :
    Fin 3 → Fin 4 → Fin N → ℚ :=
  fun i j k => newposes i (Fin.castLE (by omega) j) k

/-- Source `inversestep3` (lines 20-26): `transpose([2, 0, 1])` to shape
`(N, 3, 4)`, then concatenation with the constant row `(0, 0, 0, 1)` to form
`(N, 4, 4)` homogeneous camera-to-world matrices. -/
def inversestep3 {N : ℕ} (newposes : Fin 3 → Fin 4 → Fin N → ℚ) :
    Fin N → Matrix (Fin 4) (Fin 4) ℚ :=
  fun k => Matrix.of fun i j =>
    if h : (i : ℕ) < 3 then newposes ⟨i, h⟩ j k
    else if (j : ℕ) = 3 then 1 else 0

/-- Source `inversestep4` (lines 18-19): batched `np.linalg.inv`. -/
def inversestep4 {N : ℕ} (c2w_mats : Fin N → Matrix (Fin 4) (Fin 4) ℚ) :
    Fin N → Matrix (Fin 4) (Fin 4) ℚ :=
  fun k => npLinalgInv (c2w_mats k)

/-- Source `posetow2c_matrcs` (lines 10-16): the four steps composed, the
batch unpacked into a list, entry `i` of the list from batch entry `i`. -/
def posetow2c_matrcs {N : ℕ} (poses : Fin 3 → Fin 5 → Fin N → ℚ) :
    List (Matrix (Fin 4) (Fin 4) ℚ) :=
  List.ofFn (inversestep4 (inversestep3 (inversestep2 (inversestep1 poses))))

/-- Per-record axis remap as the spec words it: permute the rotation's three
direction columns to `(col1, col0, -col2)`, keep the translation and
height/width/focal columns unchanged. -/
def specAxisRemap (M : Matrix (Fin 3) (Fin 5) ℚ) : Matrix (Fin 3) (Fin 5) ℚ :=
  Matrix.of fun i j =>
    match j with
    | 0 => M i 1
    | 1 => M i 0
    | 2 => -(M i 2)
    | 3 => M i 3
    | 4 => M i 4

/-- Per-record camera-to-world matrix as the spec words it: drop the HWF
column of the remapped record (keep the 3x4 affine part) and append the
constant bottom row `(0, 0, 0, 1)`. -/
def specCamToWorld (M : Matrix (Fin 3) (Fin 5) ℚ) : Matrix (Fin 4) (Fin 4) ℚ :=
  Matrix.of fun i j =>
    if h : (i : ℕ) < 3 then specAxisRemap M ⟨i, h⟩ (Fin.castLE (by omega) j)
    else if (j : ℕ) = 3 then 1 else 0

/-- Per-record world-to-camera matrix as the spec words it: invert the 4x4
camera-to-world matrix. -/
def specW2C (M : Matrix (Fin 3) (Fin 5) ℚ) : Matrix (Fin 4) (Fin 4) ℚ :=
  npLinalgInv (specCamToWorld M)

/-- Claim C1: for every array of `N` legacy 3x5 pose records (stacked as the
`(3, 5, N)` array the source passes in), `posetow2c_matrcs` returns exactly
the list whose `i`-th entry is the inverse of the 4x4 camera-to-world matrix
built from record `i` by the axis remap `(col1, col0, -col2)`, keeping
translation and HWF, dropping HWF, and appending the row `(0,0,0,1)`. -/
theorem claim1_pose_converter {N : ℕ} (poses : Fin N → Matrix (Fin 3) (Fin 5) ℚ) :
    posetow2c_matrcs (fun r c k => poses k r c) =
      List.ofFn (fun k => specW2C (poses k)) := by
  unfold posetow2c_matrcs
  apply congrArg List.ofFn
  funext k
  unfold inversestep4 specW2C
  apply congrArg npLinalgInv
  ext i j
  fin_cases i <;> fin_cases j <;> rfl

/-- Model-family classification value assigned to the Python local `camtype`
(only ever `"perspective"` or `"fisheye"`). -/
inductive Camtype
  | perspective
  | fisheye
deriving DecidableEq

/-- One COLMAP camera as the parsing loop of `Parser.__init__` reads it:
the model tag `cam.camera_type` (integer code; the string aliases of codes
0-5 behave identically) and the distortion fields `k1, k2, p1, p2, k3, k4`. -/
structure ColmapCam where
  tag : ℕ
  k1 : ℚ
  k2 : ℚ
  p1 : ℚ
  p2 : ℚ
  k3 : ℚ
  k4 : ℚ

/-- Fatal outcomes of one loop iteration: `nameErr` models the Python
`NameError` raised when the assert reads `camtype` before any assignment;
`assertErr` models its `AssertionError`. -/
inductive ParseErr
  | nameErr
  | assertErr
deriving DecidableEq

/-- Camera model tags accepted by the `if`/`elif` chains (codes 0-5:
SIMPLE_PINHOLE, PINHOLE, SIMPLE_RADIAL, RADIAL, OPENCV, OPENCV_FISHEYE). -/
def supportedTag (t : ℕ) : Bool :=
  decide (t ≤ 5)

/-- Source GIFStream_new.py, lines 86-107, one image: the first `if`/`elif`
chain handles tags 0 and 1, the second (a fresh `if`, not `elif`) handles
tags 2-5; a tag no branch matches leaves the loop-carried `(params, camtype)`
pair untouched; then `assert camtype == "perspective" or camtype ==
"fisheye"` reads the current value (raising `NameError` if it is unbound). -/
def classifyStep (st : Option (List ℚ × Camtype)) (c : ColmapCam) :
    Except ParseErr (List ℚ × Camtype) :=
  let st1 :=
    if c.tag = 0 then some ([], Camtype.perspective)
    else if c.tag = 1 then some ([], Camtype.perspective)
    else st
  let st2 :=
    if c.tag = 2 then some ([c.k1, 0, 0, 0], Camtype.perspective)
    else if c.tag = 3 then some ([c.k1, c.k2, 0, 0], Camtype.perspective)
    else if c.tag = 4 then some ([c.k1, c.k2, c.p1, c.p2], Camtype.perspective)
    else if c.tag = 5 then some ([c.k1, c.k2, c.k3, c.k4], Camtype.fisheye)
    else st1
  match st2 with
  | none => Except.error ParseErr.nameErr
  | some v =>
      if v.2 = Camtype.perspective ∨ v.2 = Camtype.fisheye then Except.ok v
      else Except.error ParseErr.assertErr

/-- The whole per-image loop of `Parser.__init__`: starting from the unbound
state, process each image in order, recording the `(params, camtype)` pair
stored for that image (`params_dict[camera_id] = params`) and the final value
of the loop-carried state; any raised error aborts the loop. -/
def classifyLoop (st : Option (List ℚ × Camtype)) :
    List ColmapCam →
      Except ParseErr (List (List ℚ × Camtype) × Option (List ℚ × Camtype))
  | [] => Except.ok ([], st)
  | c :: rest =>
      match classifyStep st c with
      | Except.error e => Except.error e
      | Except.ok v =>
          match classifyLoop (some v) rest with
          | Except.error e => Except.error e
          | Except.ok (vs, fin) => Except.ok (v :: vs, fin)

/-- Entry point of the classification loop: the Python locals `params` and
`camtype` start unbound. -/
def parseCameras (cams : List ColmapCam) :
    Except ParseErr (List (List ℚ × Camtype) × Option (List ℚ × Camtype)) :=
  classifyLoop none cams

theorem classifyStep_some_unsupported (v : List ℚ × Camtype) (c : ColmapCam)
    (h : 5 < c.tag) :
    classifyStep (some v) c = Except.ok v := by
  have h0 : ¬ (c.tag = 0) := by omega
  have h1 : ¬ (c.tag = 1) := by omega
  have h2 : ¬ (c.tag = 2) := by omega
  have h3 : ¬ (c.tag = 3) := by omega
  have h4 : ¬ (c.tag = 4) := by omega
  have h5 : ¬ (c.tag = 5) := by omega
  obtain ⟨p, ct⟩ := v
  cases ct <;> simp [classifyStep, h0, h1, h2, h3, h4, h5]

theorem classifyStep_supported_ok (c : ColmapCam) (h : c.tag ≤ 5)
    (st : Option (List ℚ × Camtype)) :
    ∃ w, classifyStep st c = Except.ok w := by
  have hcase : c.tag = 0 ∨ c.tag = 1 ∨ c.tag = 2 ∨ c.tag = 3 ∨ c.tag = 4 ∨
      c.tag = 5 := by omega
  rcases hcase with ht | ht | ht | ht | ht | ht
  · exact ⟨([], Camtype.perspective), by simp [classifyStep, ht]⟩
  · exact ⟨([], Camtype.perspective), by simp [classifyStep, ht]⟩
  · exact ⟨([c.k1, 0, 0, 0], Camtype.perspective), by simp [classifyStep, ht]⟩
  · exact ⟨([c.k1, c.k2, 0, 0], Camtype.perspective), by simp [classifyStep, ht]⟩
  · exact ⟨([c.k1, c.k2, c.p1, c.p2], Camtype.perspective),
      by simp [classifyStep, ht]⟩
  · exact ⟨([c.k1, c.k2, c.k3, c.k4], Camtype.fisheye),
      by simp [classifyStep, ht]⟩

theorem classifyStep_some_ok (v : List ℚ × Camtype) (c : ColmapCam) :
    ∃ w, classifyStep (some v) c = Except.ok w := by
  rcases Nat.lt_or_ge 5 c.tag with h | h
  · exact ⟨v, classifyStep_some_unsupported v c h⟩
  · exact classifyStep_supported_ok c h (some v)

theorem classifyLoop_some_ok (cams : List ColmapCam) (v : List ℚ × Camtype) :
    (classifyLoop (some v) cams).isOk = true := by
  induction cams generalizing v with
  | nil => rfl
  | cons c rest ih =>
      obtain ⟨w, hw⟩ := classifyStep_some_ok v c
      have hrest := ih w
      cases hr : classifyLoop (some w) rest with
      | error e =>
          rw [hr] at hrest
          simp [Except.isOk, Except.toBool] at hrest
      | ok p =>
          obtain ⟨vs, fin⟩ := p
          unfold classifyLoop
          simp only [hw, hr]
          rfl

theorem classifyStep_none_unsupported (c : ColmapCam) (h : 5 < c.tag) :
    classifyStep none c = Except.error ParseErr.nameErr := by
  have h0 : ¬ (c.tag = 0) := by omega
  have h1 : ¬ (c.tag = 1) := by omega
  have h2 : ¬ (c.tag = 2) := by omega
  have h3 : ¬ (c.tag = 3) := by omega
  have h4 : ¬ (c.tag = 4) := by omega
  have h5 : ¬ (c.tag = 5) := by omega
  simp [classifyStep, h0, h1, h2, h3, h4, h5]

theorem parseCameras_cons_supported (c : ColmapCam) (rest : List ColmapCam)
    (h : supportedTag c.tag = true) :
    (parseCameras (c :: rest)).isOk = true := by
  have hle : c.tag ≤ 5 := of_decide_eq_true h
  obtain ⟨w, hw⟩ := classifyStep_supported_ok c hle none
  have hrest := classifyLoop_some_ok rest w
  unfold parseCameras classifyLoop
  cases hr : classifyLoop (some w) rest with
  | error e =>
      rw [hr] at hrest
      simp [Except.isOk, Except.toBool] at hrest
  | ok p =>
      obtain ⟨vs, fin⟩ := p
      simp only [hw, hr]
      rfl

theorem parseCameras_isOk_iff (cams : List ColmapCam) :
    (parseCameras cams).isOk = false ↔
      ∃ c rest, cams = c :: rest ∧ supportedTag c.tag = false := by
  cases cams with
  | nil =>
      constructor
      · intro h
        simp [parseCameras, classifyLoop, Except.isOk, Except.toBool] at h
      · rintro ⟨c, rest, heq, -⟩
        cases heq
  | cons c rest =>
      by_cases h : supportedTag c.tag
      · rw [parseCameras_cons_supported c rest h]
        constructor
        · intro hcontra
          cases hcontra
        · rintro ⟨c', rest', heq, hsup⟩
          cases heq
          rw [h] at hsup
          cases hsup
      · have hc' : decide (c.tag ≤ 5) = false := by
          rw [← Bool.not_eq_true]
          simpa [supportedTag] using h
        have ht : 5 < c.tag := by
          have := of_decide_eq_false hc'
          omega
        refine ⟨fun _ => ⟨c, rest, rfl, hc'⟩, fun _ => ?_⟩
        unfold parseCameras classifyLoop
        rw [classifyStep_none_unsupported c ht]
        rfl

/-- Counterexample to claim C3 as stated: a reconstruction whose second
image's camera carries the unsupported model tag 7 is parsed to completion
with no fatal error (the stale `camtype`/`params` of the first image pass
the assert), so an unsupported tag does not fail regardless of position. -/
theorem claim3_counterexample :
    supportedTag 7 = false ∧
    (parseCameras [⟨1, 0, 0, 0, 0, 0, 0⟩, ⟨7, 1, 2, 3, 4, 5, 6⟩]).isOk = true := by
  constructor
  · rfl
  · rfl

/-- Claim C3 (amended): the Calibration Parser fails fatally on an
unsupported camera-model tag only when that camera is carried by the first
enumerated image (equivalently, parsing fails iff the first image's tag is
unsupported); an unsupported camera at any later position is processed
without error and silently inherits the previous image's `(params, camtype)`
pair. -/
theorem claim3_unsupported_model (cams : List ColmapCam) :
    ((parseCameras cams).isOk = false ↔
      ∃ c rest, cams = c :: rest ∧ supportedTag c.tag = false) ∧
    (∀ (v : List ℚ × Camtype) (c : ColmapCam), supportedTag c.tag = false →
      classifyStep (some v) c = Except.ok v) := by
  refine ⟨parseCameras_isOk_iff cams, fun v c hc => ?_⟩
  apply classifyStep_some_unsupported
  have hc' : decide (c.tag ≤ 5) = false := hc
  have := of_decide_eq_false hc'
  omega

/-- Witness for claim C3 (amended), applying it to the empty camera list and
to a concrete stale state and unsupported camera. -/
theorem claim3_unsupported_model_witness :
    classifyStep (some ([], Camtype.perspective)) ⟨7, 1, 2, 3, 4, 5, 6⟩ =
      Except.ok ([], Camtype.perspective) ∧ supportedTag 7 = false :=
  ⟨(claim3_unsupported_model []).2 ([], Camtype.perspective)
      ⟨7, 1, 2, 3, 4, 5, 6⟩ rfl, rfl⟩

/-- The model family a camera model tag belongs to by its own `if`/`elif`
branch: tags 0-4 are classified `"perspective"`, tag 5 `"fisheye"`, others
are classified by no branch. -/
def famOfTag (t : ℕ) : Option Camtype :=
  if t = 0 ∨ t = 1 ∨ t = 2 ∨ t = 3 ∨ t = 4 then some Camtype.perspective
  else if t = 5 then some Camtype.fisheye
  else none

/-- Undistortion-branch selection of `Parser.__init__` (lines 233-296): a
camera whose stored `params` array is empty is skipped (`continue`), and for
any other camera the perspective/fisheye construction is chosen by the value
the loop variable `camtype` holds after the parsing loop ended, carried in
the final state `fin`. -/
def undistChoice (fin : Option (List ℚ × Camtype)) (v : List ℚ × Camtype) :
    Option Camtype :=
  if v.1.length = 0 then none
  else
    match fin with
    | some f => some f.2
    | none => none

theorem classifyLoop_ok_length (cams : List ColmapCam)
    (st : Option (List ℚ × Camtype)) (vs : List (List ℚ × Camtype))
    (fin : Option (List ℚ × Camtype))
    (hok : classifyLoop st cams = Except.ok (vs, fin)) :
    vs.length = cams.length := by
  induction cams generalizing st vs with
  | nil =>
      unfold classifyLoop at hok
      cases hok
      rfl
  | cons c rest ih =>
      unfold classifyLoop at hok
      cases hs : classifyStep st c with
      | error e => simp only [hs] at hok; cases hok
      | ok w =>
          simp only [hs] at hok
          cases hr : classifyLoop (some w) rest with
          | error e => simp only [hr] at hok; cases hok
          | ok p =>
              obtain ⟨vs', fin'⟩ := p
              simp only [hr] at hok
              cases hok
              simp [ih (some w) vs' hr]

theorem classifyLoop_ok_fin (cams : List ColmapCam)
    (st : Option (List ℚ × Camtype)) (vs : List (List ℚ × Camtype))
    (fin : Option (List ℚ × Camtype))
    (hok : classifyLoop st cams = Except.ok (vs, fin)) (hne : vs ≠ []) :
    fin = vs.getLast? := by
  induction cams generalizing st vs with
  | nil =>
      unfold classifyLoop at hok
      cases hok
      cases hne rfl
  | cons c rest ih =>
      unfold classifyLoop at hok
      cases hs : classifyStep st c with
      | error e => simp only [hs] at hok; cases hok
      | ok w =>
          simp only [hs] at hok
          cases hr : classifyLoop (some w) rest with
          | error e => simp only [hr] at hok; cases hok
          | ok p =>
              obtain ⟨vs', fin'⟩ := p
              simp only [hr] at hok
              cases hok
              cases vs' with
              | nil =>
                  cases rest with
                  | nil =>
                      unfold classifyLoop at hr
                      cases hr
                      simp
                  | cons c2 rest2 =>
                      unfold classifyLoop at hr
                      cases hs2 : classifyStep (some w) c2 with
                      | error e => simp only [hs2] at hr; cases hr
                      | ok w2 =>
                          simp only [hs2] at hr
                          cases hr2 : classifyLoop (some w2) rest2 with
                          | error e => simp only [hr2] at hr; cases hr
                          | ok p2 =>
                              obtain ⟨vs2, fin2⟩ := p2
                              simp only [hr2] at hr
                              cases hr
              | cons v2 t2 =>
                  rw [List.getLast?_cons_cons]
                  exact ih (some w) (v2 :: t2) hr (by simp)

theorem classifyStep_supported_snd (c : ColmapCam) (h : c.tag ≤ 5)
    (st : Option (List ℚ × Camtype)) (w : List ℚ × Camtype)
    (hw : classifyStep st c = Except.ok w) :
    some w.2 = famOfTag c.tag := by
  have hcase : c.tag = 0 ∨ c.tag = 1 ∨ c.tag = 2 ∨ c.tag = 3 ∨ c.tag = 4 ∨
      c.tag = 5 := by omega
  rcases hcase with ht | ht | ht | ht | ht | ht <;>
    (simp [classifyStep, ht] at hw
     cases hw
     simp [famOfTag, ht])

theorem famOfTag_supported (t : ℕ) (fam : Camtype)
    (h : famOfTag t = some fam) : t ≤ 5 := by
  by_contra hc
  push_neg at hc
  have h0 : ¬ (t = 0 ∨ t = 1 ∨ t = 2 ∨ t = 3 ∨ t = 4) := by omega
  have h5 : ¬ (t = 5) := by omega
  rw [famOfTag, if_neg h0, if_neg h5] at h
  cases h

theorem classifyLoop_snd_eq (cams : List ColmapCam)
    (st : Option (List ℚ × Camtype)) (vs : List (List ℚ × Camtype))
    (fin : Option (List ℚ × Camtype))
    (hok : classifyLoop st cams = Except.ok (vs, fin)) (fam : Camtype)
    (hall : ∀ j (hj : j < cams.length),
      famOfTag ((cams.get ⟨j, hj⟩).tag) = some fam) :
    ∀ i (hi : i < vs.length), (vs.get ⟨i, hi⟩).2 = fam := by
  induction cams generalizing st vs with
  | nil =>
      unfold classifyLoop at hok
      cases hok
      intro i hi
      cases hi
  | cons c rest ih =>
      unfold classifyLoop at hok
      cases hs : classifyStep st c with
      | error e => simp only [hs] at hok; cases hok
      | ok w =>
          simp only [hs] at hok
          cases hr : classifyLoop (some w) rest with
          | error e => simp only [hr] at hok; cases hok
          | ok p =>
              obtain ⟨vs', fin'⟩ := p
              simp only [hr] at hok
              cases hok
              intro i hi
              cases i with
              | zero =>
                  have hc0 := hall 0 (by simp)
                  have hle : c.tag ≤ 5 := famOfTag_supported _ _ (by simpa using hc0)
                  have := classifyStep_supported_snd c hle st w hs
                  show w.2 = fam
                  have hfam : some w.2 = some fam := by
                    rw [this]
                    simpa using hc0
                  exact Option.some.inj hfam
              | succ n =>
                  have hrest := ih (some w) vs' hr
                    (fun j hj => by simpa using hall (j + 1) (by simpa using hj))
                  simpa using hrest n (by simpa using hi)

/-- Claim C10: during undistortion map construction the perspective/fisheye
branch for every distorted camera is chosen by the single classification
value left over from the last image processed in the parsing loop, not by
that camera's own tag; when all cameras share one model family the choice
coincides with each camera's own family. -/
theorem claim10_stale_camtype (cams : List ColmapCam)
    (vs : List (List ℚ × Camtype)) (fin : Option (List ℚ × Camtype))
    (hok : parseCameras cams = Except.ok (vs, fin)) :
    (∀ i (hi : i < vs.length), (vs.get ⟨i, hi⟩).1.length ≠ 0 →
        undistChoice fin (vs.get ⟨i, hi⟩) = vs.getLast?.map Prod.snd) ∧
    (∀ fam : Camtype,
      (∀ j (hj : j < cams.length),
        famOfTag ((cams.get ⟨j, hj⟩).tag) = some fam) →
      ∀ i (hi : i < vs.length), (vs.get ⟨i, hi⟩).1.length ≠ 0 →
        ∀ (hic : i < cams.length),
          undistChoice fin (vs.get ⟨i, hi⟩) =
            famOfTag ((cams.get ⟨i, hic⟩).tag)) := by
  have hne : ∀ i, i < vs.length → vs ≠ [] := by
    intro i hi hcon
    rw [hcon] at hi
    cases hi
  have hfin : ∀ i (hi : i < vs.length), fin = vs.getLast? :=
    fun i hi => classifyLoop_ok_fin cams none vs fin hok (hne i hi)
  have hchoice : ∀ i (hi : i < vs.length), (vs.get ⟨i, hi⟩).1.length ≠ 0 →
      undistChoice fin (vs.get ⟨i, hi⟩) = vs.getLast?.map Prod.snd := by
    intro i hi hp
    simp only [undistChoice]
    rw [if_neg hp, hfin i hi]
    obtain ⟨last, hlast⟩ : ∃ last, vs.getLast? = some last :=
      Option.isSome_iff_exists.mp (List.getLast?_isSome.mpr (hne i hi))
    rw [hlast]
    rfl
  refine ⟨hchoice, ?_⟩
  intro fam hall i hi hp hic
  rw [hchoice i hi hp]
  obtain ⟨last, hlast⟩ : ∃ last, vs.getLast? = some last :=
    Option.isSome_iff_exists.mp (List.getLast?_isSome.mpr (hne i hi))
  have hvslen := classifyLoop_ok_length cams none vs fin hok
  have hlast_get : vs.getLast? = some (vs.get ⟨vs.length - 1, by omega⟩) := by
    rw [List.getLast?_eq_getElem?]
    rw [List.getElem?_eq_getElem (by omega)]
    rfl
  have hsnd := classifyLoop_snd_eq cams none vs fin hok fam hall
  have h1 : (vs.get ⟨vs.length - 1, by omega⟩).2 = fam := hsnd _ (by omega)
  have h2 : famOfTag ((cams.get ⟨i, hic⟩).tag) = some fam := hall i hic
  rw [hlast_get]
  show some (vs.get ⟨vs.length - 1, by omega⟩).2 = famOfTag ((cams.get ⟨i, hic⟩).tag)
  rw [h1, h2]

/-- Witness for claim C10 at a concrete two-camera reconstruction
(PINHOLE image first, OPENCV_FISHEYE image last): the distorted camera's
branch is the fisheye one, i.e. the classification of the last image. -/
theorem claim10_stale_camtype_witness :
    (∀ i (hi : i <
        ([([], Camtype.perspective),
          ([1, 2, 5, 6], Camtype.fisheye)] :
            List (List ℚ × Camtype)).length),
      (([([], Camtype.perspective),
         ([1, 2, 5, 6], Camtype.fisheye)] :
            List (List ℚ × Camtype)).get ⟨i, hi⟩).1.length ≠ 0 →
        undistChoice (some ([1, 2, 5, 6], Camtype.fisheye))
            (([([], Camtype.perspective),
               ([1, 2, 5, 6], Camtype.fisheye)] :
                  List (List ℚ × Camtype)).get ⟨i, hi⟩) =
          ([([], Camtype.perspective),
            ([1, 2, 5, 6], Camtype.fisheye)] :
              List (List ℚ × Camtype)).getLast?.map Prod.snd) ∧
    (∀ fam : Camtype,
      (∀ j (hj : j < ([⟨1, 0, 0, 0, 0, 0, 0⟩, ⟨5, 1, 2, 3, 4, 5, 6⟩] :
          List ColmapCam).length),
        famOfTag ((([⟨1, 0, 0, 0, 0, 0, 0⟩, ⟨5, 1, 2, 3, 4, 5, 6⟩] :
            List ColmapCam).get ⟨j, hj⟩).tag) = some fam) →
      ∀ i (hi : i <
          ([([], Camtype.perspective),
            ([1, 2, 5, 6], Camtype.fisheye)] :
              List (List ℚ × Camtype)).length),
        (([([], Camtype.perspective),
           ([1, 2, 5, 6], Camtype.fisheye)] :
              List (List ℚ × Camtype)).get ⟨i, hi⟩).1.length ≠ 0 →
        ∀ (hic : i < ([⟨1, 0, 0, 0, 0, 0, 0⟩, ⟨5, 1, 2, 3, 4, 5, 6⟩] :
            List ColmapCam).length),
          undistChoice (some ([1, 2, 5, 6], Camtype.fisheye))
              (([([], Camtype.perspective),
                 ([1, 2, 5, 6], Camtype.fisheye)] :
                    List (List ℚ × Camtype)).get ⟨i, hi⟩) =
            famOfTag ((([⟨1, 0, 0, 0, 0, 0, 0⟩, ⟨5, 1, 2, 3, 4, 5, 6⟩] :
                List ColmapCam).get ⟨i, hic⟩).tag)) :=
  claim10_stale_camtype
    [⟨1, 0, 0, 0, 0, 0, 0⟩, ⟨5, 1, 2, 3, 4, 5, 6⟩]
    [([], Camtype.perspective), ([1, 2, 5, 6], Camtype.fisheye)]
    (some ([1, 2, 5, 6], Camtype.fisheye))
    rfl

/-- Python `int()` applied to a float: truncation toward zero. -/
def pyInt (q : ℚ) : ℤ :=
  if 0 ≤ q then ⌊q⌋ else ⌈q⌉

/-- One camera's calibration state entering the resolution-reconciliation
step of `Parser.__init__`: the current intrinsic matrix `Ks_dict[cid]` and
the recorded (post-`factor`) dimensions `imsize_dict[cid]`. -/
structure CamCal where
  K : Matrix (Fin 3) (Fin 3) ℚ
  width : ℕ
  height : ℕ

/-- Source GIFStream_new.py, lines 222-227, one camera: `K[0, :] *= s_width`,
`K[1, :] *= s_height`, `imsize = (int(width * s_width), int(height *
s_height))`. -/
def rescaleCam (sW sH : ℚ) (c : CamCal) : CamCal :=
  { K := Matrix.of fun i j =>
      if i = 0 then sW * c.K i j else if i = 1 then sH * c.K i j else c.K i j
    width := (pyInt ((c.width : ℚ) * sW)).toNat
    height := (pyInt ((c.height : ℚ) * sH)).toNat }

/-- Source GIFStream_new.py, lines 216-227: read one actual on-disk image of
raw size `rawW x rawH`, downsample its dimensions by `factor`
(`x // factor`), form `s_width`/`s_height` as the ratios of the actual
dimensions to the first camera's recorded dimensions, and rescale every
camera by those two factors. -/
def rescaleStep (cams : List CamCal) (rawW rawH factor : ℕ) : List CamCal :=
  match cams with
  | [] => []
  | c0 :: _ =>
      cams.map
        (rescaleCam (((rawW / factor : ℕ) : ℚ) / (c0.width : ℚ))
          (((rawH / factor : ℕ) : ℚ) / (c0.height : ℚ)))

theorem pyInt_natCast_mul_two (n : ℕ) :
    (pyInt ((n : ℚ) * 2)).toNat = 2 * n := by
  unfold pyInt
  rw [if_pos (by positivity)]
  have h : ((n : ℚ) * 2) = ((2 * n : ℕ) : ℚ) := by push_cast; ring
  rw [h, Int.floor_natCast]
  omega

/-- Claim C9: the resolution-reconciliation step multiplies every camera's
intrinsic rows 0 and 1 (focal lengths and principal point) by the width and
height ratios of the actual (factor-downsampled) on-disk dimensions to the
reconstruction's recorded dimensions (those of the reference camera), and
rescales every camera's recorded dimensions by the same ratios; when the
actual dimensions are exactly twice the recorded ones, every focal length,
principal-point coordinate and dimension doubles. -/
theorem claim9_intrinsic_rescale (c0 : CamCal) (cams : List CamCal)
    (rawW rawH factor : ℕ) (hW : 0 < c0.width) (hH : 0 < c0.height) :
    rescaleStep (c0 :: cams) rawW rawH factor =
      (c0 :: cams).map
        (rescaleCam (((rawW / factor : ℕ) : ℚ) / (c0.width : ℚ))
          (((rawH / factor : ℕ) : ℚ) / (c0.height : ℚ))) ∧
    (∀ (sW sH : ℚ) (c : CamCal) (j : Fin 3),
      (rescaleCam sW sH c).K 0 j = sW * c.K 0 j ∧
      (rescaleCam sW sH c).K 1 j = sH * c.K 1 j ∧
      (rescaleCam sW sH c).K 2 j = c.K 2 j ∧
      (rescaleCam sW sH c).width = (pyInt ((c.width : ℚ) * sW)).toNat ∧
      (rescaleCam sW sH c).height = (pyInt ((c.height : ℚ) * sH)).toNat) ∧
    (rawW / factor = 2 * c0.width → rawH / factor = 2 * c0.height →
      ∀ (c : CamCal) (j : Fin 3),
        (rescaleCam (((rawW / factor : ℕ) : ℚ) / (c0.width : ℚ))
            (((rawH / factor : ℕ) : ℚ) / (c0.height : ℚ)) c).K 0 j =
          2 * c.K 0 j ∧
        (rescaleCam (((rawW / factor : ℕ) : ℚ) / (c0.width : ℚ))
            (((rawH / factor : ℕ) : ℚ) / (c0.height : ℚ)) c).K 1 j =
          2 * c.K 1 j ∧
        (rescaleCam (((rawW / factor : ℕ) : ℚ) / (c0.width : ℚ))
            (((rawH / factor : ℕ) : ℚ) / (c0.height : ℚ)) c).width =
          2 * c.width ∧
        (rescaleCam (((rawW / factor : ℕ) : ℚ) / (c0.width : ℚ))
            (((rawH / factor : ℕ) : ℚ) / (c0.height : ℚ)) c).height =
          2 * c.height) := by
  have hrows : ∀ (sW sH : ℚ) (c : CamCal) (j : Fin 3),
      (rescaleCam sW sH c).K 0 j = sW * c.K 0 j ∧
      (rescaleCam sW sH c).K 1 j = sH * c.K 1 j ∧
      (rescaleCam sW sH c).K 2 j = c.K 2 j ∧
      (rescaleCam sW sH c).width = (pyInt ((c.width : ℚ) * sW)).toNat ∧
      (rescaleCam sW sH c).height = (pyInt ((c.height : ℚ) * sH)).toNat := by
    intro sW sH c j
    refine ⟨rfl, ?_, ?_, rfl, rfl⟩
    · show (if (1 : Fin 3) = 0 then sW * c.K 1 j
        else if (1 : Fin 3) = 1 then sH * c.K 1 j else c.K 1 j) = sH * c.K 1 j
      rw [if_neg (by decide), if_pos rfl]
    · show (if (2 : Fin 3) = 0 then sW * c.K 2 j
        else if (2 : Fin 3) = 1 then sH * c.K 2 j else c.K 2 j) = c.K 2 j
      rw [if_neg (by decide), if_neg (by decide)]
  refine ⟨rfl, hrows, ?_⟩
  intro h2W h2H c j
  have hsW : (((rawW / factor : ℕ) : ℚ) / (c0.width : ℚ)) = 2 := by
    rw [h2W]
    push_cast
    rw [mul_div_assoc, div_self (by exact_mod_cast hW.ne')]
    ring
  have hsH : (((rawH / factor : ℕ) : ℚ) / (c0.height : ℚ)) = 2 := by
    rw [h2H]
    push_cast
    rw [mul_div_assoc, div_self (by exact_mod_cast hH.ne')]
    ring
  obtain ⟨e0, e1, e2, ew, eh⟩ := hrows
    (((rawW / factor : ℕ) : ℚ) / (c0.width : ℚ))
    (((rawH / factor : ℕ) : ℚ) / (c0.height : ℚ)) c j
  refine ⟨?_, ?_, ?_, ?_⟩
  · rw [e0, hsW]
  · rw [e1, hsH]
  · rw [ew, hsW, pyInt_natCast_mul_two]
  · rw [eh, hsH, pyInt_natCast_mul_two]

/-- Witness for claim C9 at a concrete camera (identity intrinsics, recorded
size 4x3) with raw on-disk size 8x6 (exactly twice the recorded size) and
factor 1, the inner doubling hypotheses discharged. -/
theorem claim9_intrinsic_rescale_witness :
    (rescaleCam (((8 / 1 : ℕ) : ℚ) / (((⟨1, 4, 3⟩ : CamCal)).width : ℚ))
        (((6 / 1 : ℕ) : ℚ) / (((⟨1, 4, 3⟩ : CamCal)).height : ℚ))
        ⟨1, 4, 3⟩).K 0 0 = 2 * ((⟨1, 4, 3⟩ : CamCal)).K 0 0 ∧
    (rescaleCam (((8 / 1 : ℕ) : ℚ) / (((⟨1, 4, 3⟩ : CamCal)).width : ℚ))
        (((6 / 1 : ℕ) : ℚ) / (((⟨1, 4, 3⟩ : CamCal)).height : ℚ))
        ⟨1, 4, 3⟩).K 1 0 = 2 * ((⟨1, 4, 3⟩ : CamCal)).K 1 0 ∧
    (rescaleCam (((8 / 1 : ℕ) : ℚ) / (((⟨1, 4, 3⟩ : CamCal)).width : ℚ))
        (((6 / 1 : ℕ) : ℚ) / (((⟨1, 4, 3⟩ : CamCal)).height : ℚ))
        ⟨1, 4, 3⟩).width = 2 * ((⟨1, 4, 3⟩ : CamCal)).width ∧
    (rescaleCam (((8 / 1 : ℕ) : ℚ) / (((⟨1, 4, 3⟩ : CamCal)).width : ℚ))
        (((6 / 1 : ℕ) : ℚ) / (((⟨1, 4, 3⟩ : CamCal)).height : ℚ))
        ⟨1, 4, 3⟩).height = 2 * ((⟨1, 4, 3⟩ : CamCal)).height :=
  (claim9_intrinsic_rescale ⟨1, 4, 3⟩ [] 8 6 1 (by norm_num)
    (by norm_num)).2.2 (by norm_num) (by norm_num) ⟨1, 4, 3⟩ 0

/-- One fisheye camera entering the undistortion-map construction of
`Parser.__init__` (lines 252-296): intrinsics `fx, fy, cx, cy` from `K`, the
four polynomial coefficients `params[0..3]`, and the current
`imsize_dict` dimensions. -/
structure Fisheye where
  fx : ℚ
  fy : ℚ
  cx : ℚ
  cy : ℚ
  k1 : ℚ
  k2 : ℚ
  k3 : ℚ
  k4 : ℚ
  width : ℕ
  height : ℕ

/-- Source lines 262-272, x component: `x1 = (grid_x - cx) / fx`,
`theta = sqrt(x1**2 + y1**2)`,
`r = 1 + k1*theta**2 + k2*theta**4 + k3*theta**6 + k4*theta**8`,
`mapx = fx * x1 * r + width // 2`.  Only even powers of `theta` occur, so
`theta**(2*j)` is embedded exactly as `(x1^2 + y1^2)^j`. -/
def fisheyeMapx (cam : Fisheye) (X Y : ℕ) : ℚ :=
  let x1 := ((X : ℚ) - cam.cx) / cam.fx
  let y1 := ((Y : ℚ) - cam.cy) / cam.fy
  let t2 := x1 ^ 2 + y1 ^ 2
  cam.fx * x1 *
      (1 + cam.k1 * t2 + cam.k2 * t2 ^ 2 + cam.k3 * t2 ^ 3 + cam.k4 * t2 ^ 4) +
    ((cam.width / 2 : ℕ) : ℚ)

/-- Source lines 262-273, y component: `mapy = fy * y1 * r + height // 2`. -/
def fisheyeMapy (cam : Fisheye) (X Y : ℕ) : ℚ :=
  let x1 := ((X : ℚ) - cam.cx) / cam.fx
  let y1 := ((Y : ℚ) - cam.cy) / cam.fy
  let t2 := x1 ^ 2 + y1 ^ 2
  cam.fy * y1 *
      (1 + cam.k1 * t2 + cam.k2 * t2 ^ 2 + cam.k3 * t2 ^ 3 + cam.k4 * t2 ^ 4) +
    ((cam.height / 2 : ℕ) : ℚ)

/-- Source lines 276-279: the per-pixel validity mask
`(mapx > 0) & (mapy > 0) & (mapx < width - 1) & (mapy < height - 1)`. -/
def fisheyeValid (cam : Fisheye) (X Y : ℕ) : Bool :=
  decide (0 < fisheyeMapx cam X Y) && decide (0 < fisheyeMapy cam X Y) &&
    decide (fisheyeMapx cam X Y < (cam.width : ℚ) - 1) &&
    decide (fisheyeMapy cam X Y < (cam.height : ℚ) - 1)

/-- The x coordinates of the mask's true pixels, row-major, as
`np.nonzero(mask)` returns them in `x_indices`. -/
def fisheyeValidXs (cam : Fisheye) : List ℕ :=
  (List.range cam.height).flatMap
    (fun Y => (List.range cam.width).filter (fun X => fisheyeValid cam X Y))

/-- The y coordinates of the mask's true pixels, row-major, as
`np.nonzero(mask)` returns them in `y_indices`. -/
def fisheyeValidYs (cam : Fisheye) : List ℕ :=
  (List.range cam.height).flatMap
    (fun Y =>
      ((List.range cam.width).filter (fun X => fisheyeValid cam X Y)).map
        (fun _ => Y))

/-- The result of lines 280-287: crop offset `(x_min, y_min)`, crop size
`(x_max - x_min, y_max - y_min)` with `x_max = x_indices.max() + 1`, and the
shifted principal point of `K_undist`. -/
structure FisheyeROI where
  xMin : ℕ
  yMin : ℕ
  roiW : ℕ
  roiH : ℕ
  cxU : ℚ
  cyU : ℚ

/-- Source lines 280-287: mins and maxes of the valid-pixel coordinate lists
(`.min()`/`.max()` raise on an empty array, modelled as `none`), the ROI
rectangle `[x_min, y_min, x_max - x_min, y_max - y_min]` and the
principal-point shift `K_undist[0,2] -= x_min`, `K_undist[1,2] -= y_min`. -/
def fisheyeROI (cam : Fisheye) : Option FisheyeROI :=
  match (fisheyeValidXs cam).min?, (fisheyeValidXs cam).max?,
      (fisheyeValidYs cam).min?, (fisheyeValidYs cam).max? with
  | some xm, some xM, some ym, some yM =>
      some ⟨xm, ym, xM + 1 - xm, yM + 1 - ym, cam.cx - xm, cam.cy - ym⟩
  | _, _, _, _ => none

theorem mem_fisheyeValidXs (cam : Fisheye) (X : ℕ) :
    X ∈ fisheyeValidXs cam ↔
      ∃ Y, Y < cam.height ∧ X < cam.width ∧ fisheyeValid cam X Y = true := by
  simp [fisheyeValidXs, List.mem_flatMap, List.mem_filter, List.mem_range]

theorem mem_fisheyeValidYs (cam : Fisheye) (Y : ℕ) :
    Y ∈ fisheyeValidYs cam ↔
      ∃ X, X < cam.width ∧ Y < cam.height ∧ fisheyeValid cam X Y = true := by
  simp only [fisheyeValidYs, List.mem_flatMap, List.mem_map, List.mem_filter,
    List.mem_range]
  constructor
  · rintro ⟨Y2, hY2, X, ⟨⟨hX, hv⟩, rfl⟩⟩
    exact ⟨X, hX, hY2, hv⟩
  · rintro ⟨X, hX, hY, hv⟩
    exact ⟨Y, hY, X, ⟨hX, hv⟩, rfl⟩

/-- Claim C7 (amended): the fisheye validity mask marks exactly the
destination pixels whose computed source coordinates fall strictly inside
the source image bounds, and the ROI crop rectangle is the smallest
axis-aligned bounding rectangle of the valid pixel set (every valid pixel
lies in it and each of its four edges carries a valid pixel) — not the
largest all-valid rectangle, since it may contain invalid pixels; the
principal point is shifted by the crop offset `(x_min, y_min)`. -/
theorem claim7_fisheye_roi (cam : Fisheye) (r : FisheyeROI)
    (hroi : fisheyeROI cam = some r) :
    (∀ X Y, X < cam.width → Y < cam.height → fisheyeValid cam X Y = true →
      r.xMin ≤ X ∧ X < r.xMin + r.roiW ∧ r.yMin ≤ Y ∧ Y < r.yMin + r.roiH) ∧
    (∃ X Y, X < cam.width ∧ Y < cam.height ∧ fisheyeValid cam X Y = true ∧
      X = r.xMin) ∧
    (∃ X Y, X < cam.width ∧ Y < cam.height ∧ fisheyeValid cam X Y = true ∧
      X + 1 = r.xMin + r.roiW) ∧
    (∃ X Y, X < cam.width ∧ Y < cam.height ∧ fisheyeValid cam X Y = true ∧
      Y = r.yMin) ∧
    (∃ X Y, X < cam.width ∧ Y < cam.height ∧ fisheyeValid cam X Y = true ∧
      Y + 1 = r.yMin + r.roiH) ∧
    r.cxU = cam.cx - r.xMin ∧ r.cyU = cam.cy - r.yMin ∧
    (∀ X Y, fisheyeValid cam X Y = true ↔
      (0 < fisheyeMapx cam X Y ∧ 0 < fisheyeMapy cam X Y ∧
        fisheyeMapx cam X Y < (cam.width : ℚ) - 1 ∧
        fisheyeMapy cam X Y < (cam.height : ℚ) - 1)) := by
  unfold fisheyeROI at hroi
  split at hroi
  case _ xm xM ym yM hx1 hx2 hy1 hy2 =>
    cases hroi
    obtain ⟨hxmem, hxle⟩ := List.min?_eq_some_iff'.mp hx1
    obtain ⟨hXmem, hXge⟩ := List.max?_eq_some_iff'.mp hx2
    obtain ⟨hymem, hyle⟩ := List.min?_eq_some_iff'.mp hy1
    obtain ⟨hYmem, hYge⟩ := List.max?_eq_some_iff'.mp hy2
    have hxmM : xm ≤ xM := hxle xM hXmem
    have hymM : ym ≤ yM := hyle yM hYmem
    refine ⟨?_, ?_, ?_, ?_, ?_, rfl, rfl, ?_⟩
    · intro X Y hX hY hv
      have hXin : X ∈ fisheyeValidXs cam :=
        (mem_fisheyeValidXs cam X).mpr ⟨Y, hY, hX, hv⟩
      have hYin : Y ∈ fisheyeValidYs cam :=
        (mem_fisheyeValidYs cam Y).mpr ⟨X, hX, hY, hv⟩
      have h1 := hxle X hXin
      have h2 := hXge X hXin
      have h3 := hyle Y hYin
      have h4 := hYge Y hYin
      refine ⟨h1, ?_, h3, ?_⟩
      · show X < xm + (xM + 1 - xm)
        omega
      · show Y < ym + (yM + 1 - ym)
        omega
    · obtain ⟨Y0, hY0, hXw, hv0⟩ := (mem_fisheyeValidXs cam xm).mp hxmem
      exact ⟨xm, Y0, hXw, hY0, hv0, rfl⟩
    · obtain ⟨Y0, hY0, hXw, hv0⟩ := (mem_fisheyeValidXs cam xM).mp hXmem
      refine ⟨xM, Y0, hXw, hY0, hv0, ?_⟩
      show xM + 1 = xm + (xM + 1 - xm)
      omega
    · obtain ⟨X0, hX0, hYh, hv0⟩ := (mem_fisheyeValidYs cam ym).mp hymem
      exact ⟨X0, ym, hX0, hYh, hv0, rfl⟩
    · obtain ⟨X0, hX0, hYh, hv0⟩ := (mem_fisheyeValidYs cam yM).mp hYmem
      refine ⟨X0, yM, hX0, hYh, hv0, ?_⟩
      show yM + 1 = ym + (yM + 1 - ym)
      omega
    · intro X Y
      simp [fisheyeValid, and_assoc]
  case _ =>
    cases hroi

/-- A concrete fisheye camera: `fx = fy = 1`, principal point `(2, 2)`,
`k1 = 1/2`, `k2 = k3 = k4 = 0`, image size 5x5.  Its strictly-valid pixel
set is the plus-shape `{(2,1), (1,2), (2,2), (3,2), (2,3)}`. -/
def exFisheye : Fisheye :=
  ⟨1, 1, 2, 2, 1 / 2, 0, 0, 0, 5, 5⟩

theorem exFisheye_validXs : fisheyeValidXs exFisheye = [2, 1, 2, 3, 2] := by
  have h5 : List.range 5 = [0, 1, 2, 3, 4] := rfl
  have hw : exFisheye.width = 5 := rfl
  have hh : exFisheye.height = 5 := rfl
  norm_num [fisheyeValidXs, hw, hh, h5, fisheyeValid, fisheyeMapx, fisheyeMapy,
    exFisheye, List.filter_cons, List.filter_nil]

theorem exFisheye_validYs : fisheyeValidYs exFisheye = [1, 2, 2, 2, 3] := by
  have h5 : List.range 5 = [0, 1, 2, 3, 4] := rfl
  have hw : exFisheye.width = 5 := rfl
  have hh : exFisheye.height = 5 := rfl
  norm_num [fisheyeValidYs, hw, hh, h5, fisheyeValid, fisheyeMapx, fisheyeMapy,
    exFisheye, List.filter_cons, List.filter_nil]
  rfl

theorem exFisheye_roi :
    fisheyeROI exFisheye = some ⟨1, 1, 3, 3, 1, 1⟩ := by
  unfold fisheyeROI
  rw [exFisheye_validXs, exFisheye_validYs]
  have hminx : ([2, 1, 2, 3, 2] : List ℕ).min? = some 1 := rfl
  have hmaxx : ([2, 1, 2, 3, 2] : List ℕ).max? = some 3 := rfl
  have hminy : ([1, 2, 2, 2, 3] : List ℕ).min? = some 1 := rfl
  have hmaxy : ([1, 2, 2, 2, 3] : List ℕ).max? = some 3 := rfl
  rw [hminx, hmaxx, hminy, hmaxy]
  show some (⟨1, 1, 3 + 1 - 1, 3 + 1 - 1, exFisheye.cx - (1 : ℕ),
    exFisheye.cy - (1 : ℕ)⟩ : FisheyeROI) = some ⟨1, 1, 3, 3, 1, 1⟩
  have hcx : exFisheye.cx - ((1 : ℕ) : ℚ) = 1 := by
    norm_num [exFisheye]
  have hcy : exFisheye.cy - ((1 : ℕ) : ℚ) = 1 := by
    norm_num [exFisheye]
  rw [hcx, hcy]

/-- Counterexample to claim C7 as stated: for `exFisheye` the code's ROI
rectangle is `[1, 1, 3, 3]` (pixels `1 ≤ X < 4`, `1 ≤ Y < 4`), yet the
destination pixel `(1, 1)` inside it has source coordinates NOT strictly
inside the image bounds (its mask entry is false) — so the computed ROI is
not a rectangle of pixels whose source coordinates all fall strictly inside
the bounds, hence not the largest such rectangle. -/
theorem claim7_counterexample :
    fisheyeROI exFisheye = some ⟨1, 1, 3, 3, 1, 1⟩ ∧
    1 ≤ 1 ∧ (1 : ℕ) < 1 + 3 ∧
    fisheyeValid exFisheye 1 1 = false := by
  refine ⟨exFisheye_roi, le_refl 1, by norm_num, ?_⟩
  norm_num [fisheyeValid, fisheyeMapx, fisheyeMapy, exFisheye]

/-- Witness for claim C7 (amended) at the concrete camera `exFisheye` and
its computed ROI `⟨1, 1, 3, 3, 1, 1⟩`. -/
theorem claim7_fisheye_roi_witness :
    (∀ X Y, X < exFisheye.width → Y < exFisheye.height →
      fisheyeValid exFisheye X Y = true →
      (1 : ℕ) ≤ X ∧ X < 1 + 3 ∧ (1 : ℕ) ≤ Y ∧ Y < 1 + 3) ∧
    (∃ X Y, X < exFisheye.width ∧ Y < exFisheye.height ∧
      fisheyeValid exFisheye X Y = true ∧ X = 1) ∧
    (∃ X Y, X < exFisheye.width ∧ Y < exFisheye.height ∧
      fisheyeValid exFisheye X Y = true ∧ X + 1 = 1 + 3) ∧
    (∃ X Y, X < exFisheye.width ∧ Y < exFisheye.height ∧
      fisheyeValid exFisheye X Y = true ∧ Y = 1) ∧
    (∃ X Y, X < exFisheye.width ∧ Y < exFisheye.height ∧
      fisheyeValid exFisheye X Y = true ∧ Y + 1 = 1 + 3) ∧
    (1 : ℚ) = exFisheye.cx - ((1 : ℕ) : ℚ) ∧
    (1 : ℚ) = exFisheye.cy - ((1 : ℕ) : ℚ) ∧
    (∀ X Y, fisheyeValid exFisheye X Y = true ↔
      (0 < fisheyeMapx exFisheye X Y ∧ 0 < fisheyeMapy exFisheye X Y ∧
        fisheyeMapx exFisheye X Y < (exFisheye.width : ℚ) - 1 ∧
        fisheyeMapy exFisheye X Y < (exFisheye.height : ℚ) - 1)) :=
  claim7_fisheye_roi exFisheye ⟨1, 1, 3, 3, 1, 1⟩ exFisheye_roi

end GIFStream
